import Mathlib

/-!
Verification of the Black-Scholes pricing and implied-volatility core of
IV_Surface.py against its specification.

The pricing functions `bs_call_no_div`, `bs_call_div`, `bs_put_no_div` and
`bs_put_div` are shallowly embedded over the real numbers, with `norm.cdf`
(the standard normal cumulative distribution function of scipy) embedded as
an integral of the Gaussian density.  The implied-volatility solver
`implied_volatility` is embedded with explicit Python exception semantics,
because the module-level name `bs_call_price` that its objective function
references is not defined anywhere in the module, so the objective raises
`NameError` on every evaluation.
-/

open MeasureTheory Filter Set Topology

/-- Density of the standard normal distribution, the derivative of scipy's
`norm.cdf`. -/
noncomputable def stdNormalPDF (t : ℝ) : ℝ :=
  (Real.sqrt (2 * Real.pi))⁻¹ * Real.exp (-(t ^ 2 / 2))

lemma stdNormalPDF_pos (t : ℝ) : 0 < stdNormalPDF t := by
  apply mul_pos
  · rw [inv_pos]
    apply Real.sqrt_pos.mpr
    positivity
  · exact Real.exp_pos _

lemma stdNormalPDF_nonneg (t : ℝ) : 0 ≤ stdNormalPDF t := (stdNormalPDF_pos t).le

lemma stdNormalPDF_neg (t : ℝ) : stdNormalPDF (-t) = stdNormalPDF t := by
  unfold stdNormalPDF
  rw [neg_sq]

lemma stdNormalPDF_eq :
    stdNormalPDF = fun t : ℝ => (Real.sqrt (2 * Real.pi))⁻¹ * Real.exp (-(2⁻¹ : ℝ) * t ^ 2) := by
  funext t
  unfold stdNormalPDF
  congr 1
  ring_nf

lemma continuous_stdNormalPDF : Continuous stdNormalPDF := by
  unfold stdNormalPDF
  exact continuous_const.mul (Real.continuous_exp.comp (((continuous_pow 2).div_const 2).neg))

lemma integrable_stdNormalPDF : Integrable stdNormalPDF := by
  rw [stdNormalPDF_eq]
  have h : Integrable fun t : ℝ => Real.exp (-(2⁻¹ : ℝ) * t ^ 2) :=
    integrable_exp_neg_mul_sq (by norm_num)
  exact h.const_mul _

lemma integral_stdNormalPDF : ∫ t, stdNormalPDF t = 1 := by
  rw [stdNormalPDF_eq]
  rw [MeasureTheory.integral_mul_left]
  have hg := integral_gaussian (2⁻¹ : ℝ)
  rw [hg]
  rw [show Real.pi / 2⁻¹ = 2 * Real.pi by ring]
  rw [inv_mul_cancel₀]
  exact (Real.sqrt_pos.mpr (by positivity)).ne'

/-- Embedding of scipy's `norm.cdf`, the standard normal cumulative
distribution function used as `N` in all four pricing functions. -/
noncomputable def normCdf (x : ℝ) : ℝ := ∫ t in Iic x, stdNormalPDF t

lemma normCdf_nonneg (x : ℝ) : 0 ≤ normCdf x :=
  setIntegral_nonneg measurableSet_Iic fun t _ => stdNormalPDF_nonneg t

lemma normCdf_le_one (x : ℝ) : normCdf x ≤ 1 := by
  rw [← integral_stdNormalPDF]
  exact setIntegral_le_integral integrable_stdNormalPDF
    (ae_of_all _ fun t => stdNormalPDF_nonneg t)

lemma normCdf_pos (x : ℝ) : 0 < normCdf x := by
  rw [normCdf, setIntegral_pos_iff_support_of_nonneg_ae
    (ae_of_all _ fun t => stdNormalPDF_nonneg t) integrable_stdNormalPDF.integrableOn]
  have hsupp : Function.support stdNormalPDF = univ :=
    eq_univ_iff_forall.mpr fun t => Function.mem_support.mpr (stdNormalPDF_pos t).ne'
  rw [hsupp, univ_inter, Real.volume_Iic]
  exact ENNReal.zero_lt_top

lemma normCdf_mono : Monotone normCdf := by
  intro a b hab
  exact setIntegral_mono_set integrable_stdNormalPDF.integrableOn
    (ae_of_all _ fun t => stdNormalPDF_nonneg t)
    (HasSubset.Subset.eventuallyLE (Iic_subset_Iic.mpr hab))

lemma normCdf_add_neg (x : ℝ) : normCdf x + normCdf (-x) = 1 := by
  have h1 : normCdf (-x) = ∫ t in Ioi x, stdNormalPDF t := by
    rw [normCdf]
    have : (∫ t in Iic (-x), stdNormalPDF t) = ∫ t in Iic (-x), stdNormalPDF (-t) := by
      refine setIntegral_congr_fun measurableSet_Iic fun t _ => ?_
      rw [stdNormalPDF_neg]
    rw [this, integral_comp_neg_Iic, neg_neg]
  rw [normCdf, h1]
  have h2 := MeasureTheory.integral_add_compl (measurableSet_Iic (a := x))
    integrable_stdNormalPDF
  rw [compl_Iic] at h2
  rw [h2, integral_stdNormalPDF]

lemma hasDerivAt_normCdf (x : ℝ) : HasDerivAt normCdf (stdNormalPDF x) x := by
  have heq : normCdf = fun u => normCdf 0 + ∫ t in (0 : ℝ)..u, stdNormalPDF t := by
    funext u
    rw [normCdf, normCdf]
    rw [← intervalIntegral.integral_Iic_sub_Iic integrable_stdNormalPDF.integrableOn
      integrable_stdNormalPDF.integrableOn]
    ring
  rw [heq]
  have hd : HasDerivAt (fun u => ∫ t in (0 : ℝ)..u, stdNormalPDF t) (stdNormalPDF x) x :=
    intervalIntegral.integral_hasDerivAt_right
      integrable_stdNormalPDF.intervalIntegrable
      (continuous_stdNormalPDF.stronglyMeasurableAtFilter _ _)
      continuous_stdNormalPDF.continuousAt
  exact hd.const_add (normCdf 0)

lemma tendsto_normCdf_atBot : Tendsto normCdf atBot (𝓝 0) := by
  have hbound : ∀ x : ℝ, x ≤ -2 → normCdf x ≤ (Real.sqrt (2 * Real.pi))⁻¹ * Real.exp x := by
    intro x hx
    have h1 : normCdf x ≤ ∫ t in Iic x, (Real.sqrt (2 * Real.pi))⁻¹ * Real.exp t := by
      rw [normCdf]
      apply setIntegral_mono_on integrable_stdNormalPDF.integrableOn
        (((integrableOn_exp_Iic x).const_mul _))
        measurableSet_Iic
      intro t ht
      have ht2 : t ≤ -2 := le_trans ht hx
      unfold stdNormalPDF
      apply mul_le_mul_of_nonneg_left _ (by positivity)
      apply Real.exp_le_exp.mpr
      nlinarith
    have h2 : (∫ t in Iic x, (Real.sqrt (2 * Real.pi))⁻¹ * Real.exp t)
        = (Real.sqrt (2 * Real.pi))⁻¹ * Real.exp x := by
      rw [MeasureTheory.integral_mul_left, integral_exp_Iic]
    rw [h2] at h1
    exact h1
  apply tendsto_of_tendsto_of_tendsto_of_le_of_le'
    (tendsto_const_nhds : Tendsto (fun _ : ℝ => (0 : ℝ)) atBot (𝓝 0))
    (show Tendsto (fun x : ℝ => (Real.sqrt (2 * Real.pi))⁻¹ * Real.exp x) atBot (𝓝 0) by
      have := Real.tendsto_exp_atBot.const_mul ((Real.sqrt (2 * Real.pi))⁻¹)
      rwa [mul_zero] at this)
  · exact Eventually.of_forall fun x => normCdf_nonneg x
  · exact (eventually_le_atBot (-2 : ℝ)).mono hbound

/-- The factorization identity exp x * phi(x/s + s/2) = phi(x/s - s/2) of the
standard normal density, the algebraic heart of the Black-Scholes formulas. -/
lemma stdNormalPDF_shift (s x : ℝ) (hs : s ≠ 0) :
    Real.exp x * stdNormalPDF (x / s + s / 2) = stdNormalPDF (x / s - s / 2) := by
  unfold stdNormalPDF
  rw [mul_comm (Real.exp x), mul_assoc, ← Real.exp_add]
  congr 1
  have : -((x / s + s / 2) ^ 2 / 2) + x = -((x / s - s / 2) ^ 2 / 2) := by
    field_simp
    ring
  rw [this]

/-- Workhorse inequality behind non-negativity of the pricing model: for
every positive s, phi-cdf at x/s - s/2 is strictly below exp x times
phi-cdf at x/s + s/2. -/
lemma normCdf_key (s : ℝ) (hs : 0 < s) (x : ℝ) :
    normCdf (x / s - s / 2) < Real.exp x * normCdf (x / s + s / 2) := by
  set g : ℝ → ℝ := fun y => Real.exp y * normCdf (y / s + s / 2) - normCdf (y / s - s / 2)
    with hg
  have hderiv : ∀ y : ℝ, HasDerivAt g (Real.exp y * normCdf (y / s + s / 2)) y := by
    intro y
    have h1 : HasDerivAt (fun y : ℝ => y / s + s / 2) (1 / s) y :=
      ((hasDerivAt_id y).div_const s).add_const _
    have h2 : HasDerivAt (fun y : ℝ => y / s - s / 2) (1 / s) y :=
      ((hasDerivAt_id y).div_const s).sub_const _
    have hb := (hasDerivAt_normCdf (y / s + s / 2)).comp y h1
    have ha := (hasDerivAt_normCdf (y / s - s / 2)).comp y h2
    have he := Real.hasDerivAt_exp y
    have hmul := he.mul hb
    have htot := hmul.sub ha
    convert htot using 1
    have hid := stdNormalPDF_shift s y hs.ne'
    simp only [Function.comp]
    rw [← hid]
    ring
  have hmono : Monotone g :=
    monotone_of_deriv_nonneg (fun y => (hderiv y).differentiableAt)
      (fun y => by
        rw [(hderiv y).deriv]
        exact mul_nonneg (Real.exp_pos y).le (normCdf_nonneg _))
  have hstrict : StrictMono g :=
    strictMono_of_deriv_pos (fun y => by
      rw [(hderiv y).deriv]
      exact mul_pos (Real.exp_pos y) (normCdf_pos _))
  have htend : Tendsto g atBot (𝓝 0) := by
    have hterm1 : Tendsto (fun y : ℝ => Real.exp y * normCdf (y / s + s / 2)) atBot (𝓝 0) := by
      apply tendsto_of_tendsto_of_tendsto_of_le_of_le'
        (tendsto_const_nhds : Tendsto (fun _ : ℝ => (0 : ℝ)) atBot (𝓝 0)) Real.tendsto_exp_atBot
      · exact Eventually.of_forall fun y =>
          mul_nonneg (Real.exp_pos y).le (normCdf_nonneg _)
      · exact Eventually.of_forall fun y =>
          mul_le_of_le_one_right (Real.exp_pos y).le (normCdf_le_one _)
    have harg : Tendsto (fun y : ℝ => y / s - s / 2) atBot atBot := by
      apply tendsto_atBot_add_const_right
      exact tendsto_id.atBot_div_const hs
    have hterm2 : Tendsto (fun y : ℝ => normCdf (y / s - s / 2)) atBot (𝓝 0) :=
      tendsto_normCdf_atBot.comp harg
    have := hterm1.sub hterm2
    rwa [sub_zero] at this
  have hnonneg : ∀ y : ℝ, 0 ≤ g y := by
    intro y
    refine le_of_tendsto htend ?_
    exact (eventually_le_atBot y).mono fun z hz => hmono hz
  have hlt : g (x - 1) < g x := hstrict (by linarith)
  have := lt_of_le_of_lt (hnonneg (x - 1)) hlt
  rw [hg] at this
  simp only at this
  linarith

/-- Embedding of `bs_call_no_div(S, K, T, r, sigma)` from IV_Surface.py.
`normCdf` plays the role of `N = norm.cdf`. -/
noncomputable def bs_call_no_div (S K T r sigma : ℝ) : ℝ :=
  let d1 := (Real.log (S / K) + (r + sigma ^ 2 / 2) * T) / (sigma * Real.sqrt T)
  let d2 := d1 - sigma * Real.sqrt T
  S * normCdf d1 - K * Real.exp (-r * T) * normCdf d2

/-- Embedding of `bs_call_div(S, K, T, r, q, sigma)` from IV_Surface.py. -/
noncomputable def bs_call_div (S K T r q sigma : ℝ) : ℝ :=
  let d1 := (Real.log (S / K) + (r - q + sigma ^ 2 / 2) * T) / (sigma * Real.sqrt T)
  let d2 := d1 - sigma * Real.sqrt T
  S * Real.exp (-q * T) * normCdf d1 - K * Real.exp (-r * T) * normCdf d2

/-- Embedding of `bs_put_no_div(S, K, T, r, sigma)` from IV_Surface.py. -/
noncomputable def bs_put_no_div (S K T r sigma : ℝ) : ℝ :=
  let d1 := (Real.log (S / K) + (r + sigma ^ 2 / 2) * T) / (sigma * Real.sqrt T)
  let d2 := d1 - sigma * Real.sqrt T
  K * Real.exp (-r * T) * normCdf (-d2) - S * normCdf (-d1)

/-- Embedding of `bs_put_div(S, K, T, r, q, sigma)` from IV_Surface.py. -/
noncomputable def bs_put_div (S K T r q sigma : ℝ) : ℝ :=
  let d1 := (Real.log (S / K) + (r - q + sigma ^ 2 / 2) * T) / (sigma * Real.sqrt T)
  let d2 := d1 - sigma * Real.sqrt T
  K * Real.exp (-r * T) * normCdf (-d2) - S * Real.exp (-q * T) * normCdf (-d1)

lemma bs_call_div_eq (S K T r q sigma : ℝ) :
    bs_call_div S K T r q sigma =
      S * Real.exp (-q * T) *
          normCdf ((Real.log (S / K) + (r - q + sigma ^ 2 / 2) * T) / (sigma * Real.sqrt T)) -
        K * Real.exp (-r * T) *
          normCdf ((Real.log (S / K) + (r - q + sigma ^ 2 / 2) * T) / (sigma * Real.sqrt T) -
            sigma * Real.sqrt T) := rfl

lemma bs_put_div_eq (S K T r q sigma : ℝ) :
    bs_put_div S K T r q sigma =
      K * Real.exp (-r * T) *
          normCdf (-((Real.log (S / K) + (r - q + sigma ^ 2 / 2) * T) / (sigma * Real.sqrt T) -
            sigma * Real.sqrt T)) -
        S * Real.exp (-q * T) *
          normCdf (-((Real.log (S / K) + (r - q + sigma ^ 2 / 2) * T) /
            (sigma * Real.sqrt T))) := rfl

/-- With positive maturity and volatility, the source's d1 decomposes as
x/s + s/2 for x the log-moneyness drift term and s the total volatility. -/
lemma bs_d1_decomp (S K T r q sigma : ℝ) (hT : 0 < T) (hsig : 0 < sigma) :
    (Real.log (S / K) + (r - q + sigma ^ 2 / 2) * T) / (sigma * Real.sqrt T)
      = (Real.log (S / K) + (r - q) * T) / (sigma * Real.sqrt T)
        + (sigma * Real.sqrt T) / 2 := by
  have hst : Real.sqrt T * Real.sqrt T = T := Real.mul_self_sqrt hT.le
  have hs : sigma * Real.sqrt T ≠ 0 := (mul_pos hsig (Real.sqrt_pos.mpr hT)).ne'
  field_simp
  linear_combination (-2 : ℝ) * sigma ^ 3 * Real.sqrt T * hst

lemma bs_exp_x (S K T r q : ℝ) (hS : 0 < S) (hK : 0 < K) :
    K * Real.exp (-r * T) * Real.exp (Real.log (S / K) + (r - q) * T)
      = S * Real.exp (-q * T) := by
  rw [Real.exp_add, Real.exp_log (div_pos hS hK)]
  rw [show K * Real.exp (-r * T) * (S / K * Real.exp ((r - q) * T))
      = S / K * K * (Real.exp (-r * T) * Real.exp ((r - q) * T)) by ring]
  rw [← Real.exp_add, div_mul_cancel₀ _ hK.ne']
  congr 1
  ring

lemma bs_exp_neg_x (S K T r q : ℝ) (hS : 0 < S) (hK : 0 < K) :
    S * Real.exp (-q * T) * Real.exp (-(Real.log (S / K) + (r - q) * T))
      = K * Real.exp (-r * T) := by
  have h := bs_exp_x S K T r q hS hK
  have hexp : Real.exp (Real.log (S / K) + (r - q) * T) ≠ 0 := Real.exp_ne_zero _
  rw [Real.exp_neg, ← h, mul_assoc, mul_inv_cancel₀ hexp, mul_one]

/-- Strict positivity of the dividend-aware call price for S,K,T,sigma > 0. -/
lemma bs_call_div_pos (S K T r q sigma : ℝ) (hS : 0 < S) (hK : 0 < K) (hT : 0 < T)
    (hsig : 0 < sigma) : 0 < bs_call_div S K T r q sigma := by
  have hs : 0 < sigma * Real.sqrt T := mul_pos hsig (Real.sqrt_pos.mpr hT)
  rw [bs_call_div_eq, bs_d1_decomp S K T r q sigma hT hsig]
  set s := sigma * Real.sqrt T with hsdef
  set xv := Real.log (S / K) + (r - q) * T with hxdef
  have hkey := normCdf_key s hs xv
  have hB : 0 < K * Real.exp (-r * T) := by positivity
  have h1 : K * Real.exp (-r * T) * normCdf (xv / s - s / 2)
      < K * Real.exp (-r * T) * (Real.exp xv * normCdf (xv / s + s / 2)) :=
    mul_lt_mul_of_pos_left hkey hB
  have h2 : K * Real.exp (-r * T) * (Real.exp xv * normCdf (xv / s + s / 2))
      = S * Real.exp (-q * T) * normCdf (xv / s + s / 2) := by
    rw [← mul_assoc, mul_comm (K * Real.exp (-r * T)) (Real.exp xv),
      mul_comm (Real.exp xv) (K * Real.exp (-r * T))]
    rw [bs_exp_x S K T r q hS hK]
  rw [h2] at h1
  have harg : xv / s + s / 2 - s = xv / s - s / 2 := by ring
  rw [harg]
  linarith

/-- Strict positivity of the dividend-aware put price for S,K,T,sigma > 0. -/
lemma bs_put_div_pos (S K T r q sigma : ℝ) (hS : 0 < S) (hK : 0 < K) (hT : 0 < T)
    (hsig : 0 < sigma) : 0 < bs_put_div S K T r q sigma := by
  have hs : 0 < sigma * Real.sqrt T := mul_pos hsig (Real.sqrt_pos.mpr hT)
  rw [bs_put_div_eq, bs_d1_decomp S K T r q sigma hT hsig]
  set s := sigma * Real.sqrt T with hsdef
  set xv := Real.log (S / K) + (r - q) * T with hxdef
  have hkey := normCdf_key s hs (-xv)
  have hA : 0 < S * Real.exp (-q * T) := by positivity
  have h1 : S * Real.exp (-q * T) * normCdf (-xv / s - s / 2)
      < S * Real.exp (-q * T) * (Real.exp (-xv) * normCdf (-xv / s + s / 2)) :=
    mul_lt_mul_of_pos_left hkey hA
  have h2 : S * Real.exp (-q * T) * (Real.exp (-xv) * normCdf (-xv / s + s / 2))
      = K * Real.exp (-r * T) * normCdf (-xv / s + s / 2) := by
    rw [← mul_assoc, mul_comm (S * Real.exp (-q * T)) (Real.exp (-xv)),
      mul_comm (Real.exp (-xv)) (S * Real.exp (-q * T))]
    rw [bs_exp_neg_x S K T r q hS hK]
  rw [h2] at h1
  have harg1 : -(xv / s + s / 2 - s) = -xv / s + s / 2 := by ring
  have harg2 : -(xv / s + s / 2) = -xv / s - s / 2 := by ring
  rw [harg1, harg2]
  linarith

/-- Put-call parity of the dividend-aware pricing formulas, unconditionally. -/
lemma bs_parity (S K T r q sigma : ℝ) :
    bs_call_div S K T r q sigma - bs_put_div S K T r q sigma
      = S * Real.exp (-q * T) - K * Real.exp (-r * T) := by
  rw [bs_call_div_eq, bs_put_div_eq]
  have h1 := normCdf_add_neg
    ((Real.log (S / K) + (r - q + sigma ^ 2 / 2) * T) / (sigma * Real.sqrt T))
  have h2 := normCdf_add_neg
    ((Real.log (S / K) + (r - q + sigma ^ 2 / 2) * T) / (sigma * Real.sqrt T) -
      sigma * Real.sqrt T)
  linear_combination (S * Real.exp (-q * T)) * h1 - (K * Real.exp (-r * T)) * h2

/-- The dividend-aware call formula at q = 0 coincides with the no-dividend
call formula, unconditionally. -/
lemma bs_call_div_zero_q (S K T r sigma : ℝ) :
    bs_call_div S K T r 0 sigma = bs_call_no_div S K T r sigma := by
  rw [bs_call_div_eq]
  show _ = S * normCdf _ - K * Real.exp (-r * T) * normCdf _
  rw [neg_zero, zero_mul, Real.exp_zero, mul_one, sub_zero]

/-- The dividend-aware put formula at q = 0 coincides with the no-dividend
put formula, unconditionally. -/
lemma bs_put_div_zero_q (S K T r sigma : ℝ) :
    bs_put_div S K T r 0 sigma = bs_put_no_div S K T r sigma := by
  rw [bs_put_div_eq]
  show _ = K * Real.exp (-r * T) * normCdf (-_) - S * normCdf (-_)
  rw [neg_zero, zero_mul, Real.exp_zero, mul_one, sub_zero]

/-- Python exceptions relevant to `implied_volatility`: `NameError` (raised
when the objective evaluates the undefined module name `bs_call_price`) and
the two exception classes named in the `except` clause. -/
inductive PyExn : Type
  | nameError
  | valueError
  | runtimeError
deriving DecidableEq, Repr

/-- Value returned by `implied_volatility` to its caller: a float, the float
NaN (`np.nan`, the "no solution" sentinel), or a propagated exception. -/
inductive IVResult : Type
  | num (x : ℝ)
  | nan
  | exn (e : PyExn)

/-- Embedding of the inner `objective_function(sigma)` of
`implied_volatility`.  Its body is
`return bs_call_price(S, K, T, r, sigma, q) - price`, but `bs_call_price`
is not defined anywhere in IV_Surface.py (the module only defines
`bs_call_no_div`, `bs_call_div`, `bs_put_no_div` and `bs_put_div`), so
evaluating the body raises `NameError` before anything is computed. -/
def objective_function (S K T r q price sigma : ℝ) : Except PyExn ℝ :=
  Except.error PyExn.nameError

/-- Semantics of the iteration core of scipy's `brentq` after the input
checks, abstracted as a parameter: this program's objective raises on every
evaluation, so the iteration itself is never reached and the results proved
below hold for every choice of it. -/
def BrentIterFun : Type :=
  (ℝ → Except PyExn ℝ) → ℝ → ℝ → Except PyExn ℝ

/-- Embedding of `scipy.optimize.brentq(f, a, b)` as exercised by this
program: brentq evaluates the objective at the two bracket endpoints; an
exception raised by the objective propagates.  If both evaluations succeed
and the values have the same sign, brentq raises `ValueError` (its
documented behavior for a non-straddling bracket); otherwise the
root-finding iteration `it` runs. -/
noncomputable def brentq (it : BrentIterFun) (f : ℝ → Except PyExn ℝ) (a b : ℝ) : Except PyExn ℝ :=
  match f a with
  | Except.error e => Except.error e
  | Except.ok fa =>
    match f b with
    | Except.error e => Except.error e
    | Except.ok fb =>
      if 0 < fa * fb then Except.error PyExn.valueError else it f a b

/-- Embedding of the `try ... except (ValueError, RuntimeError): np.nan`
wrapper in `implied_volatility`: those two exception classes are converted
to the NaN sentinel, any other exception propagates to the caller. -/
def catchValueRuntime : Except PyExn ℝ → IVResult
  | Except.ok x => IVResult.num x
  | Except.error PyExn.valueError => IVResult.nan
  | Except.error PyExn.runtimeError => IVResult.nan
  | Except.error e => IVResult.exn e

/-- Embedding of `implied_volatility(price, S, K, T, r, q=0)` from
IV_Surface.py, parameterized by the (never reached) brentq iteration core. -/
noncomputable def implied_volatility (it : BrentIterFun) (price S K T r q : ℝ) : IVResult :=
  if T ≤ 0 ∨ price ≤ 0 then IVResult.nan
  else catchValueRuntime (brentq it (objective_function S K T r q price) 1e-6 5)

/-- A concrete iteration core, used to instantiate closed statements; the
theorems below never depend on its behavior. -/
def brentIterStub : BrentIterFun := fun _ _ _ => Except.error PyExn.runtimeError

lemma brentq_objective (it : BrentIterFun) (S K T r q price a b : ℝ) :
    brentq it (objective_function S K T r q price) a b
      = Except.error PyExn.nameError := rfl

lemma implied_volatility_of_valid (it : BrentIterFun) (price S K T r q : ℝ)
    (hT : 0 < T) (hp : 0 < price) :
    implied_volatility it price S K T r q = IVResult.exn PyExn.nameError := by
  rw [implied_volatility, if_neg, brentq_objective]
  · rfl
  · push_neg
    exact ⟨hT, hp⟩

/-- Value actually returned by the floating-point evaluation of
`bs_call_div`.  On the main domain (denominator `sigma*sqrt(T)` nonzero,
S/K a positive ratio, T nonnegative) it is the real number
`bs_call_div S K T r q sigma`.  On the singular set IEEE semantics take
over: when the denominator is zero, `d1` is `inf` (numerator positive,
`N(inf) = 1`), `-inf` (numerator negative, `N(-inf) = 0`) or NaN from `0/0`
(numerator zero); `T < 0` makes `sqrt` return NaN, and a non-positive
`S <= 0` or `K <= 0` makes `log` return NaN or `-inf`.  A NaN price, and
the `S <= 0`/`K <= 0` inputs (outside every claim's domain), are modelled
as `none`. -/
noncomputable def bs_call_divE (S K T r q sigma : ℝ) : Option ℝ :=
  if S ≤ 0 ∨ K ≤ 0 ∨ T < 0 then none
  else if sigma * Real.sqrt T = 0 then
    if 0 < Real.log (S / K) + (r - q + sigma ^ 2 / 2) * T then
      some (S * Real.exp (-q * T) - K * Real.exp (-r * T))
    else if Real.log (S / K) + (r - q + sigma ^ 2 / 2) * T < 0 then some 0
    else none
  else some (bs_call_div S K T r q sigma)

/-- Value actually returned by the floating-point evaluation of
`bs_put_div`; same singular-set conventions as `bs_call_divE`
(`d1 = d2 = inf` makes `N(-d1) = N(-d2) = 0`, `d1 = d2 = -inf` makes them
1, `0/0` makes the price NaN, modelled as `none`). -/
noncomputable def bs_put_divE (S K T r q sigma : ℝ) : Option ℝ :=
  if S ≤ 0 ∨ K ≤ 0 ∨ T < 0 then none
  else if sigma * Real.sqrt T = 0 then
    if 0 < Real.log (S / K) + (r - q + sigma ^ 2 / 2) * T then some 0
    else if Real.log (S / K) + (r - q + sigma ^ 2 / 2) * T < 0 then
      some (K * Real.exp (-r * T) - S * Real.exp (-q * T))
    else none
  else some (bs_put_div S K T r q sigma)

lemma bs_call_divE_of_pos (S K T r q sigma : ℝ) (hS : 0 < S) (hK : 0 < K) (hT : 0 < T)
    (hsig : 0 < sigma) :
    bs_call_divE S K T r q sigma = some (bs_call_div S K T r q sigma) := by
  rw [bs_call_divE, if_neg, if_neg]
  · exact (mul_pos hsig (Real.sqrt_pos.mpr hT)).ne'
  · push_neg
    exact ⟨hS, hK, hT.le⟩

lemma bs_put_divE_of_pos (S K T r q sigma : ℝ) (hS : 0 < S) (hK : 0 < K) (hT : 0 < T)
    (hsig : 0 < sigma) :
    bs_put_divE S K T r q sigma = some (bs_put_div S K T r q sigma) := by
  rw [bs_put_divE, if_neg, if_neg]
  · exact (mul_pos hsig (Real.sqrt_pos.mpr hT)).ne'
  · push_neg
    exact ⟨hS, hK, hT.le⟩

/-- Vega: derivative of the dividend-aware call price in sigma.  The value
is S*exp(-q*T)*phi(d1)*sqrt(T), strictly positive. -/
lemma hasDerivAt_bs_call_div (S K T r q : ℝ) (hS : 0 < S) (hK : 0 < K) (hT : 0 < T)
    (sigma : ℝ) (hsig : 0 < sigma) :
    HasDerivAt (fun v => bs_call_div S K T r q v)
      (S * Real.exp (-q * T) *
        stdNormalPDF ((Real.log (S / K) + (r - q + sigma ^ 2 / 2) * T) /
          (sigma * Real.sqrt T)) * Real.sqrt T) sigma := by
  have hw : 0 < Real.sqrt T := Real.sqrt_pos.mpr hT
  have hden : sigma * Real.sqrt T ≠ 0 := (mul_pos hsig hw).ne'
  have hD : HasDerivAt (fun v : ℝ => v * Real.sqrt T) (Real.sqrt T) sigma := by
    simpa using (hasDerivAt_id sigma).mul_const (Real.sqrt T)
  have hpow : HasDerivAt (fun v : ℝ => v ^ 2) (2 * sigma) sigma := by
    simpa using hasDerivAt_pow 2 sigma
  have hN : HasDerivAt (fun v : ℝ => Real.log (S / K) + (r - q + v ^ 2 / 2) * T)
      (sigma * T) sigma := by
    have h1 := (((hpow.div_const 2).const_add (r - q)).mul_const T).const_add
      (Real.log (S / K))
    convert h1 using 1
    ring
  have hd1 : HasDerivAt
      (fun v : ℝ => (Real.log (S / K) + (r - q + v ^ 2 / 2) * T) / (v * Real.sqrt T))
      ((sigma * T * (sigma * Real.sqrt T) -
        (Real.log (S / K) + (r - q + sigma ^ 2 / 2) * T) * Real.sqrt T) /
        (sigma * Real.sqrt T) ^ 2) sigma := hN.div hD hden
  have hd2 : HasDerivAt
      (fun v : ℝ => (Real.log (S / K) + (r - q + v ^ 2 / 2) * T) / (v * Real.sqrt T)
        - v * Real.sqrt T)
      ((sigma * T * (sigma * Real.sqrt T) -
        (Real.log (S / K) + (r - q + sigma ^ 2 / 2) * T) * Real.sqrt T) /
        (sigma * Real.sqrt T) ^ 2 - Real.sqrt T) sigma := hd1.sub hD
  have hc1 := (hasDerivAt_normCdf
    ((Real.log (S / K) + (r - q + sigma ^ 2 / 2) * T) / (sigma * Real.sqrt T))).comp
    sigma hd1
  have hc2 := (hasDerivAt_normCdf
    ((Real.log (S / K) + (r - q + sigma ^ 2 / 2) * T) / (sigma * Real.sqrt T)
      - sigma * Real.sqrt T)).comp sigma hd2
  have htot := (hc1.const_mul (S * Real.exp (-q * T))).sub
    (hc2.const_mul (K * Real.exp (-r * T)))
  have hfun : (fun v => bs_call_div S K T r q v)
      = fun v => S * Real.exp (-q * T) *
          (normCdf ∘ fun v : ℝ =>
            (Real.log (S / K) + (r - q + v ^ 2 / 2) * T) / (v * Real.sqrt T)) v -
        K * Real.exp (-r * T) *
          (normCdf ∘ fun v : ℝ =>
            (Real.log (S / K) + (r - q + v ^ 2 / 2) * T) / (v * Real.sqrt T)
              - v * Real.sqrt T) v := rfl
  rw [hfun]
  convert htot using 1
  -- identify the derivative value using the density factorization
  have hdecomp := bs_d1_decomp S K T r q sigma hT hsig
  have hshift := stdNormalPDF_shift (sigma * Real.sqrt T)
    (Real.log (S / K) + (r - q) * T) hden
  have harg : (Real.log (S / K) + (r - q) * T) / (sigma * Real.sqrt T)
      + sigma * Real.sqrt T / 2 - sigma * Real.sqrt T
      = (Real.log (S / K) + (r - q) * T) / (sigma * Real.sqrt T)
        - sigma * Real.sqrt T / 2 := by ring
  -- B * phi(d2) = A * phi(d1)
  have hkeyB : K * Real.exp (-r * T) *
      stdNormalPDF ((Real.log (S / K) + (r - q + sigma ^ 2 / 2) * T) /
        (sigma * Real.sqrt T) - sigma * Real.sqrt T)
      = S * Real.exp (-q * T) *
        stdNormalPDF ((Real.log (S / K) + (r - q + sigma ^ 2 / 2) * T) /
          (sigma * Real.sqrt T)) := by
    rw [hdecomp, harg, ← hshift]
    rw [show K * Real.exp (-r * T) *
        (Real.exp (Real.log (S / K) + (r - q) * T) *
          stdNormalPDF ((Real.log (S / K) + (r - q) * T) / (sigma * Real.sqrt T)
            + sigma * Real.sqrt T / 2))
        = K * Real.exp (-r * T) * Real.exp (Real.log (S / K) + (r - q) * T) *
          stdNormalPDF ((Real.log (S / K) + (r - q) * T) / (sigma * Real.sqrt T)
            + sigma * Real.sqrt T / 2) by ring]
    rw [bs_exp_x S K T r q hS hK]
  linear_combination (((sigma * T * (sigma * Real.sqrt T) -
      (Real.log (S / K) + (r - q + sigma ^ 2 / 2) * T) * Real.sqrt T) /
      (sigma * Real.sqrt T) ^ 2)) * hkeyB - Real.sqrt T * hkeyB

/-- C1: the claimed round trip price -> implied_volatility -> sigma never
happens in the code as written: for the spec's own scenario (S = K = 100,
T = 1, r = 0.05, q = 0, sigma_0 = 0.2 strictly inside the bracket), the
observed price is the model call price, yet `implied_volatility` raises
`NameError` — the objective calls `bs_call_price`, a name the module never
defines, and `except (ValueError, RuntimeError)` does not catch it — for
every choice of the (unreached) brentq iteration core. -/
theorem C1_roundtrip_raises_nameError :
    implied_volatility brentIterStub (bs_call_div 100 100 1 (5 / 100) 0 (2 / 10))
      100 100 1 (5 / 100) 0 = IVResult.exn PyExn.nameError :=
  implied_volatility_of_valid brentIterStub _ 100 100 1 (5 / 100) 0 (by norm_num)
    (bs_call_div_pos 100 100 1 (5 / 100) 0 (2 / 10) (by norm_num) (by norm_num)
      (by norm_num) (by norm_num))

/-- C2: the never-raise propagation policy is violated: at a perfectly
ordinary input (price 1, S = K = T = 1, r = q = 0) the call propagates
`NameError` to the caller instead of returning the "no solution" value. -/
theorem C2_propagates_nameError :
    implied_volatility brentIterStub 1 1 1 1 0 0 = IVResult.exn PyExn.nameError :=
  implied_volatility_of_valid brentIterStub 1 1 1 1 0 0 (by norm_num) (by norm_num)

/-- C3: the solver has no option-type parameter at all — its embedding's
signature is `(price, S, K, T, r, q)` exactly like the source — and for a
put-style quote (S = 1, K = 2, observed price 1/2) it raises `NameError`
rather than inverting `bs_put_div` (its objective references only the
undefined call-pricing name `bs_call_price`). -/
theorem C3_put_request_raises_nameError :
    implied_volatility brentIterStub (1 / 2) 1 2 1 0 0 = IVResult.exn PyExn.nameError :=
  implied_volatility_of_valid brentIterStub (1 / 2) 1 2 1 0 0 (by norm_num) (by norm_num)

/-- C4: invalid-input short-circuit: whenever T ≤ 0 or the observed price
is ≤ 0, `implied_volatility` returns the NaN "no solution" sentinel
immediately; the result does not depend on the brentq iteration core,
because the root search is never started. -/
theorem C4_invalid_input_short_circuit (it : BrentIterFun) (price S K T r q : ℝ)
    (h : T ≤ 0 ∨ price ≤ 0) :
    implied_volatility it price S K T r q = IVResult.nan := by
  rw [implied_volatility, if_pos h]

theorem C4_witness :
    implied_volatility brentIterStub 1 100 100 0 (1 / 100) 0 = IVResult.nan :=
  C4_invalid_input_short_circuit brentIterStub 1 100 100 0 (1 / 100) 0 (Or.inl le_rfl)

/-- C5: with q = 0 the dividend-aware call and put formulas agree exactly
with the no-dividend formulas for every S > 0, K > 0, T > 0, sigma > 0 and
real r. -/
theorem C5_q_zero_agreement (S K T r sigma : ℝ) (hS : 0 < S) (hK : 0 < K) (hT : 0 < T)
    (hsig : 0 < sigma) :
    bs_call_div S K T r 0 sigma = bs_call_no_div S K T r sigma ∧
      bs_put_div S K T r 0 sigma = bs_put_no_div S K T r sigma :=
  ⟨bs_call_div_zero_q S K T r sigma, bs_put_div_zero_q S K T r sigma⟩

theorem C5_witness :
    bs_call_div 1 1 1 0 0 1 = bs_call_no_div 1 1 1 0 1 ∧
      bs_put_div 1 1 1 0 0 1 = bs_put_no_div 1 1 1 0 1 :=
  C5_q_zero_agreement 1 1 1 0 1 (by norm_num) (by norm_num) (by norm_num) (by norm_num)

/-- C6: put-call parity: for every S, K, T, sigma > 0 and any real r, q,
call minus put at the same parameters equals S·e^(−qT) − K·e^(−rT). -/
theorem C6_put_call_parity (S K T r q sigma : ℝ) (hS : 0 < S) (hK : 0 < K) (hT : 0 < T)
    (hsig : 0 < sigma) :
    bs_call_div S K T r q sigma - bs_put_div S K T r q sigma
      = S * Real.exp (-q * T) - K * Real.exp (-r * T) :=
  bs_parity S K T r q sigma

theorem C6_witness :
    bs_call_div 1 1 1 0 0 1 - bs_put_div 1 1 1 0 0 1
      = 1 * Real.exp (-0 * 1) - 1 * Real.exp (-0 * 1) :=
  C6_put_call_parity 1 1 1 0 0 1 (by norm_num) (by norm_num) (by norm_num) (by norm_num)

/-- C7 counterexample: the claim includes T = 0, but at T = 0 with S = K
the source's d1 is 0/0, the price evaluates to NaN, and no (non-negative)
price is returned; concretely at S = K = 1, T = 0, r = q = 0, sigma = 1 the
returned value is not a real number. -/
theorem C7_counterexample : bs_call_divE 1 1 0 0 0 1 = none := by
  rw [bs_call_divE, if_neg, if_pos]
  · rw [if_neg, if_neg] <;> norm_num
  · norm_num
  · norm_num

/-- C7 amended: for T > 0 (instead of T ≥ 0) and S, K, sigma > 0 with any
real r, q, the evaluated call and put prices are well-defined real numbers
and non-negative. -/
theorem C7_nonneg_for_pos_T (S K T r q sigma : ℝ) (hS : 0 < S) (hK : 0 < K) (hT : 0 < T)
    (hsig : 0 < sigma) :
    ∃ c p : ℝ, bs_call_divE S K T r q sigma = some c ∧ 0 ≤ c ∧
      bs_put_divE S K T r q sigma = some p ∧ 0 ≤ p :=
  ⟨bs_call_div S K T r q sigma, bs_put_div S K T r q sigma,
    bs_call_divE_of_pos S K T r q sigma hS hK hT hsig,
    (bs_call_div_pos S K T r q sigma hS hK hT hsig).le,
    bs_put_divE_of_pos S K T r q sigma hS hK hT hsig,
    (bs_put_div_pos S K T r q sigma hS hK hT hsig).le⟩

theorem C7_witness :
    ∃ c p : ℝ, bs_call_divE 1 1 1 0 0 1 = some c ∧ 0 ≤ c ∧
      bs_put_divE 1 1 1 0 0 1 = some p ∧ 0 ≤ p :=
  C7_nonneg_for_pos_T 1 1 1 0 0 1 (by norm_num) (by norm_num) (by norm_num) (by norm_num)

/-- C8: for fixed S > 0, K > 0, T > 0 and any real r, q, the call price is
strictly increasing in sigma on the bracket (1e-6, 5), and is therefore
injective there, so the solver's objective has at most one root in the
bracket. -/
theorem C8_strictly_increasing_in_sigma (S K T r q : ℝ) (hS : 0 < S) (hK : 0 < K)
    (hT : 0 < T) :
    StrictMonoOn (fun sigma => bs_call_div S K T r q sigma) (Set.Ioo 1e-6 5) ∧
      Set.InjOn (fun sigma => bs_call_div S K T r q sigma) (Set.Ioo 1e-6 5) := by
  have hsub : ∀ v ∈ Set.Ioo (1e-6 : ℝ) 5, 0 < v := fun v hv =>
    lt_trans (by norm_num) hv.1
  have hmono : StrictMonoOn (fun sigma => bs_call_div S K T r q sigma)
      (Set.Ioo 1e-6 5) := by
    apply strictMonoOn_of_deriv_pos (convex_Ioo _ _)
    · intro v hv
      exact ((hasDerivAt_bs_call_div S K T r q hS hK hT v
        (hsub v hv)).differentiableAt.continuousAt).continuousWithinAt
    · intro v hv
      rw [interior_Ioo] at hv
      rw [(hasDerivAt_bs_call_div S K T r q hS hK hT v (hsub v hv)).deriv]
      exact mul_pos (mul_pos (mul_pos hS (Real.exp_pos _)) (stdNormalPDF_pos _))
        (Real.sqrt_pos.mpr hT)
  exact ⟨hmono, hmono.injOn⟩

theorem C8_witness : bs_call_div 1 1 1 0 0 1 < bs_call_div 1 1 1 0 0 2 :=
  (C8_strictly_increasing_in_sigma 1 1 1 0 0 (by norm_num) (by norm_num)
    (by norm_num)).1 (by norm_num [Set.mem_Ioo]) (by norm_num [Set.mem_Ioo]) (by norm_num)

/-- C9: the solver can never make good on the bracket-containment guarantee
because it never returns a volatility at all: for a solvable at-the-money
quote (price 1/2, S = K = 2, T = 1/2) it raises `NameError` instead of
producing any sigma. -/
theorem C9_no_volatility_ever_returned :
    implied_volatility brentIterStub (1 / 2) 2 2 (1 / 2) 0 0
      = IVResult.exn PyExn.nameError :=
  implied_volatility_of_valid brentIterStub (1 / 2) 2 2 (1 / 2) 0 0 (by norm_num)
    (by norm_num)

/-- C10: the "no solution" outcome is the float NaN on both failure paths:
the T ≤ 0 / price ≤ 0 short-circuit returns NaN, the except-clause maps
both `ValueError` and `RuntimeError` from the solver to NaN, and a
successful solve returns the bare float — so failure is distinguishable
from success only by testing the returned float for NaN. -/
theorem C10_nan_is_the_no_solution_sentinel :
    (∀ (it : BrentIterFun) (price S K T r q : ℝ), (T ≤ 0 ∨ price ≤ 0) →
        implied_volatility it price S K T r q = IVResult.nan) ∧
      catchValueRuntime (Except.error PyExn.valueError) = IVResult.nan ∧
      catchValueRuntime (Except.error PyExn.runtimeError) = IVResult.nan ∧
      ∀ x : ℝ, catchValueRuntime (Except.ok x) = IVResult.num x := by
  refine ⟨fun it price S K T r q h => ?_, rfl, rfl, fun x => rfl⟩
  rw [implied_volatility, if_pos h]

theorem C10_witness :
    implied_volatility brentIterStub (-1) 1 1 1 0 0 = IVResult.nan ∧
      catchValueRuntime (Except.error PyExn.valueError) = IVResult.nan :=
  ⟨C10_nan_is_the_no_solution_sentinel.1 brentIterStub (-1) 1 1 1 0 0
    (Or.inr (by norm_num)), C10_nan_is_the_no_solution_sentinel.2.1⟩
